import Mathlib

/-!
# Verification of the f5-telemetry-streaming data-acquisition core

Shallow embedding of the repository's source (src/src/nodejs/systemStats.js and
the event-listener module) together with proofs settling the frozen claims.

The JavaScript is single-threaded and event-driven; promise chains are embedded
as explicit state-passing functions.  Each `loadEndpoint` call's promise chain
runs to its suspension point (the network fetch) as one atomic step, and the
resolution of a fetch (with the continuations it unblocks) is a second atomic
step; this matches the microtask semantics for calls issued before / after the
fetch resolves, which is all the claims quantify over.
-/

namespace EndpointLoader

-- `D` is the payload type of a successful response (`data` in the JS),
-- `E` the error type; both abstract.
variable {D : Type} {E : Type}

/-- One invocation of a waiter callback: callback id, `data` argument, `err`
argument — the JS `callback(data, err)`. -/
abbrev Invocation (D E : Type) := Nat × Option D × Option E

/-- The per-endpoint cache entry `[loaded, callbacks, data]` created by
`loadEndpoint` (`this.cachedResponse[endpoint]`). -/
structure CacheEntry (D : Type) where
  loaded : Bool
  /-- waiter callback ids, in the order they were queued (JS `push` appends). -/
  callbacks : List Nat
  data : Option D
  deriving Repr, DecidableEq

/-- Loader state relevant to the claims: the endpoint catalog keys set by
`setEndpoints` and the `cachedResponse` map (one entry per endpoint name). -/
structure LoaderState (D : Type) where
  endpoints : List String
  cache : List (String × CacheEntry D)
  deriving Repr, DecidableEq

/-- Fresh loader: `cachedResponse = {}`. -/
def LoaderState.fresh (endpoints : List String) : LoaderState D :=
  { endpoints := endpoints, cache := [] }

def LoaderState.find (st : LoaderState D) (endpoint : String) :
    Option (CacheEntry D) :=
  (st.cache.find? (fun kv => kv.1 == endpoint)).map Prod.snd

def LoaderState.setEntry (st : LoaderState D) (endpoint : String)
    (e : CacheEntry D) : LoaderState D :=
  if (st.cache.find? (fun kv => kv.1 == endpoint)).isSome then
    let upd := fun (kv : String × CacheEntry D) =>
      if kv.1 == endpoint then (endpoint, e) else kv
    { st with cache := st.cache.map upd }
  else
    { st with cache := st.cache ++ [(endpoint, e)] }

/-- `EndpointLoader.prototype._executeCallbacks`: drains the waiter list with
`while (callbacks.length) { const callback = callbacks.pop(); callback(data, err); }`
— `pop` removes the LAST element, so invocation order is the reverse of queue
order.  Returns the list of invocations in the order they happen. -/
def executeCallbacks (callbacks : List Nat) (data : Option D) (err : Option E) :
    List (Invocation D E) :=
  match h : callbacks.getLast? with
  | none => []
  | some c => (c, data, err) :: executeCallbacks callbacks.dropLast data err
termination_by callbacks.length
decreasing_by
  cases callbacks with
  | nil => simp at h
  | cons a l => simp [List.length_dropLast]

/-- Result of one `loadEndpoint(endpoint, cb)` call, run to its suspension
point (covering the whole chain when no fetch is pending for the endpoint). -/
structure LoadResult (D E : Type) where
  /-- `true` iff this call triggered the network fetch (`dataIsEmpty` path). -/
  fetchTriggered : Bool
  /-- callback invocations performed during this call's chain. -/
  invocations : List (Invocation D E)
  /-- `true` iff the final `.catch` logged an error internally. -/
  loggedInternally : Bool
  deriving Repr, DecidableEq

/-- `EndpointLoader.prototype.loadEndpoint(endpoint, cb)`, run to its
suspension point.  Three paths in the source:
* endpoint not in the catalog: the initial promise rejects; the first `.catch`
  calls `_executeCallbacks(endpoint, null, err)` which reads
  `this.cachedResponse[endpoint][1]` on an `undefined` entry and throws; the
  final `.catch` logs.  No callback runs, no state change, nothing reaches the
  caller (the promise `p` is never returned).
* no cache entry yet: entry `[false, [cb], null]` is created and the fetch is
  triggered (`dataIsEmpty = true`); the chain suspends on the fetch.
* entry exists: `cb` is pushed; then the chain checks `cachedResponse[endpoint][0]`
  — if `loaded` it drains the waiter list with the cached data, otherwise it
  resolves doing nothing (the waiter stays queued). -/
def loadEndpoint (st : LoaderState D) (endpoint : String) (cb : Nat) :
    LoaderState D × LoadResult D E :=
  if endpoint ∉ st.endpoints then
    (st, { fetchTriggered := false, invocations := [], loggedInternally := true })
  else
    match st.find endpoint with
    | none =>
        (st.setEntry endpoint { loaded := false, callbacks := [cb], data := none },
         { fetchTriggered := true, invocations := [], loggedInternally := false })
    | some entry =>
        let entry' : CacheEntry D := { entry with callbacks := entry.callbacks ++ [cb] }
        if entry'.loaded then
          (st.setEntry endpoint { entry' with callbacks := [] },
           { fetchTriggered := false,
             invocations := executeCallbacks entry'.callbacks entry'.data none,
             loggedInternally := false })
        else
          (st.setEntry endpoint entry',
           { fetchTriggered := false, invocations := [], loggedInternally := false })

/-- Resolution of the pending fetch for `endpoint` with a successful response:
the triggering chain caches the result (`[2] := response; [0] := true`) and then
drains the waiter list with `(data, null)`. -/
def resolveFetchSuccess (st : LoaderState D) (endpoint : String) (response : D) :
    LoaderState D × List (Invocation D E) :=
  match st.find endpoint with
  | none => (st, [])
  | some entry =>
      (st.setEntry endpoint { loaded := true, callbacks := [], data := some response },
       executeCallbacks entry.callbacks (some response) none)

/-- Resolution of the pending fetch for `endpoint` with an error: the first
`.catch` drains the waiter list with `(null, err)`.  `loaded` stays `false` and
`data` stays `null` — the error is NOT cached.  (The subsequent
`.then(Promise.reject())` passes a promise, not a function, to `.then`, so the
chain actually continues to the `loaded` check; since `loaded` is `false` it
does nothing more.) -/
def resolveFetchFailure (st : LoaderState D) (endpoint : String) (err : E) :
    LoaderState D × List (Invocation D E) :=
  match st.find endpoint with
  | none => (st, [])
  | some entry =>
      (st.setEntry endpoint { entry with callbacks := [] },
       executeCallbacks entry.callbacks none (some err))

/-- Registering phase of a burst of N concurrent callers: run the synchronous
part of `loadEndpoint` for each callback id in turn (all before the fetch
resolves), collecting each call's `fetchTriggered` flag. -/
def registerAll (st : LoaderState D) (endpoint : String) :
    List Nat → LoaderState D × List Bool
  | [] => (st, [])
  | cb :: rest =>
      let r := loadEndpoint (E := E) st endpoint cb
      let rr := registerAll r.1 endpoint rest
      (rr.1, r.2.fetchTriggered :: rr.2)

/-! ### Helper lemmas about the loader state -/

theorem find?_map_upd (l : List (String × CacheEntry D)) (x : String)
    (e : CacheEntry D) (h : (l.find? (fun kv => kv.1 == x)).isSome) :
    ((l.map (fun kv => if kv.1 == x then (x, e) else kv)).find?
      (fun kv => kv.1 == x)) = some (x, e) := by
  induction l with
  | nil => simp at h
  | cons kv t ih =>
      by_cases hk : (kv.1 == x) = true
      · simp only [List.map_cons, if_pos hk]
        simp [List.find?]
      · have hk' : (kv.1 == x) = false := by simpa using hk
        simp only [List.find?, hk'] at h
        simp only [List.map_cons]
        rw [if_neg hk]
        simp only [List.find?, hk']
        exact ih h

theorem find?_append_single (l : List (String × CacheEntry D)) (x : String)
    (e : CacheEntry D) (h : l.find? (fun kv => kv.1 == x) = none) :
    (l ++ [(x, e)]).find? (fun kv => kv.1 == x) = some (x, e) := by
  induction l with
  | nil =>
      simp [List.find?]
  | cons kv t ih =>
      by_cases hk : (kv.1 == x) = true
      · simp only [List.find?, hk] at h
        simp at h
      · have hk' : (kv.1 == x) = false := by simpa using hk
        simp only [List.find?, hk'] at h
        simp only [List.cons_append, List.find?, hk']
        exact ih h

theorem find_setEntry_self (st : LoaderState D) (x : String) (e : CacheEntry D) :
    (st.setEntry x e).find x = some e := by
  unfold LoaderState.setEntry
  split
  · rename_i hsome
    unfold LoaderState.find
    rw [find?_map_upd st.cache x e hsome]
    rfl
  · rename_i hnone
    have h0 : st.cache.find? (fun kv => kv.1 == x) = none := by
      cases hfind : st.cache.find? (fun kv => kv.1 == x) with
      | none => rfl
      | some v => rw [hfind] at hnone; simp at hnone
    unfold LoaderState.find
    rw [find?_append_single st.cache x e h0]
    rfl

theorem endpoints_setEntry (st : LoaderState D) (x : String) (e : CacheEntry D) :
    (st.setEntry x e).endpoints = st.endpoints := by
  unfold LoaderState.setEntry
  split <;> rfl

/-- `_executeCallbacks` drains the waiter list by popping from the back, so the
invocations are exactly the queued callbacks in REVERSE queue order, each with
the one shared `(data, err)` pair. -/
theorem executeCallbacks_eq_reverse_map (cbs : List Nat) (d : Option D) (e : Option E) :
    executeCallbacks cbs d e = cbs.reverse.map (fun c => (c, d, e)) := by
  induction cbs using List.reverseRecOn with
  | nil => rw [executeCallbacks]; simp
  | append_singleton l a ih =>
      rw [executeCallbacks]
      split
      · rename_i heq
        simp [List.getLast?_concat] at heq
      · rename_i c heq
        rw [List.getLast?_concat] at heq
        cases heq
        simp [List.dropLast_concat, ih]

/-- A `loadEndpoint` call that finds a pending (not yet loaded) cache entry
just appends its callback to the waiter list. -/
theorem loadEndpoint_pending (st : LoaderState D) (x : String) (cb : Nat)
    (q : List Nat) (hx : x ∈ st.endpoints)
    (hfind : st.find x = some ⟨false, q, none⟩) :
    loadEndpoint (E := E) st x cb =
      (st.setEntry x ⟨false, q ++ [cb], none⟩,
       { fetchTriggered := false, invocations := [], loggedInternally := false }) := by
  have hmem : ¬ x ∉ st.endpoints := by simpa using hx
  unfold loadEndpoint
  rw [if_neg hmem, hfind]
  rfl

/-- Unfolding of `resolveFetchSuccess` when a cache entry exists. -/
theorem resolveFetchSuccess_eq (st : LoaderState D) (x : String)
    (entry : CacheEntry D) (resp : D) (hfind : st.find x = some entry) :
    resolveFetchSuccess (E := E) st x resp =
      (st.setEntry x ⟨true, [], some resp⟩,
       entry.callbacks.reverse.map (fun c => (c, some resp, none))) := by
  unfold resolveFetchSuccess
  rw [hfind]
  show (st.setEntry x ⟨true, [], some resp⟩,
    executeCallbacks entry.callbacks (some resp) none) = _
  rw [executeCallbacks_eq_reverse_map]

/-- Unfolding of `resolveFetchFailure` when a cache entry exists. -/
theorem resolveFetchFailure_eq (st : LoaderState D) (x : String)
    (entry : CacheEntry D) (err : E) (hfind : st.find x = some entry) :
    resolveFetchFailure st x err =
      (st.setEntry x { entry with callbacks := [] },
       entry.callbacks.reverse.map (fun c => (c, none, some err))) := by
  unfold resolveFetchFailure
  rw [hfind]
  show (st.setEntry x { entry with callbacks := [] },
    executeCallbacks entry.callbacks none (some err)) = _
  rw [executeCallbacks_eq_reverse_map]

/-- Registering a burst of waiters onto an already pending entry: none of them
triggers a fetch, and they all end up queued behind the existing waiters. -/
theorem registerAll_pending (x : String) (rest : List Nat) :
    ∀ (st : LoaderState D) (q : List Nat), x ∈ st.endpoints →
    st.find x = some ⟨false, q, none⟩ →
    (registerAll (E := E) st x rest).1.find x = some ⟨false, q ++ rest, none⟩ ∧
    (registerAll (E := E) st x rest).2 = rest.map (fun _ => false) ∧
    (registerAll (E := E) st x rest).1.endpoints = st.endpoints := by
  induction rest with
  | nil =>
      intro st q hx hfind
      simp [registerAll, hfind]
  | cons cb rest ih =>
      intro st q hx hfind
      have step := loadEndpoint_pending (E := E) st x cb q hx hfind
      have hx' : x ∈ (st.setEntry x ⟨false, q ++ [cb], none⟩).endpoints := by
        rw [endpoints_setEntry]; exact hx
      have ih' := ih (st.setEntry x ⟨false, q ++ [cb], none⟩) (q ++ [cb]) hx'
        (find_setEntry_self _ _ _)
      simp only [registerAll, step]
      refine ⟨?_, ?_, ?_⟩
      · rw [ih'.1]
        simp
      · simp [ih'.2.1]
      · rw [ih'.2.2, endpoints_setEntry]

/-- The claim C1 over any state with no cache entry for `x` yet: among the `N`
registration calls only the first triggers a network fetch, and resolution
(success or failure alike) hands every one of the `N` callbacks the identical
`(data, err)` pair. -/
theorem single_flight (st : LoaderState D) (x : String) (cbs : List Nat)
    (resp : D) (err : E) (hx : x ∈ st.endpoints) (hnone : st.find x = none)
    (hne : cbs ≠ []) :
    (registerAll (E := E) st x cbs).2.count true = 1 ∧
    (resolveFetchSuccess (E := E) (registerAll (E := E) st x cbs).1 x resp).2 =
      cbs.reverse.map (fun c => (c, some resp, none)) ∧
    (resolveFetchFailure (registerAll (E := E) st x cbs).1 x err).2 =
      cbs.reverse.map (fun c => (c, none, some err)) := by
  cases cbs with
  | nil => exact absurd rfl hne
  | cons c rest =>
      have hmem : ¬ x ∉ st.endpoints := by simpa using hx
      have step : loadEndpoint (E := E) st x c =
          (st.setEntry x ⟨false, [c], none⟩,
           { fetchTriggered := true, invocations := [], loggedInternally := false }) := by
        unfold loadEndpoint
        rw [if_neg hmem, hnone]
      have hx' : x ∈ (st.setEntry x ⟨false, [c], none⟩).endpoints := by
        rw [endpoints_setEntry]; exact hx
      have hp := registerAll_pending (E := E) x rest
        (st.setEntry x ⟨false, [c], none⟩) [c] hx' (find_setEntry_self _ _ _)
      have hreg : registerAll (E := E) st x (c :: rest) =
          ((registerAll (E := E) (st.setEntry x ⟨false, [c], none⟩) x rest).1,
           true :: (registerAll (E := E) (st.setEntry x ⟨false, [c], none⟩) x rest).2) := by
        simp only [registerAll, step]
      refine ⟨?_, ?_, ?_⟩
      · rw [hreg, List.count_cons_self, hp.2.1]
        have h0 : (rest.map (fun _ => false)).count true = 0 := by
          rw [List.count_eq_zero]
          simp
        rw [h0]
      · rw [hreg, resolveFetchSuccess_eq _ _ _ _ hp.1, List.singleton_append]
      · rw [hreg, resolveFetchFailure_eq _ _ _ _ hp.1, List.singleton_append]

/-- Witness for `single_flight`: three concurrent callers for endpoint `"X"`. -/
theorem single_flight_witness :
    (registerAll (E := Nat) (LoaderState.fresh (D := Nat) ["X"]) "X" [1, 2, 3]).2.count true = 1 ∧
    (resolveFetchSuccess (E := Nat)
        (registerAll (E := Nat) (LoaderState.fresh (D := Nat) ["X"]) "X" [1, 2, 3]).1 "X" 5).2 =
      [1, 2, 3].reverse.map (fun c => (c, some 5, none)) ∧
    (resolveFetchFailure
        (registerAll (E := Nat) (LoaderState.fresh (D := Nat) ["X"]) "X" [1, 2, 3]).1 "X" 7).2 =
      [1, 2, 3].reverse.map (fun c => (c, none, some 7)) :=
  single_flight (LoaderState.fresh ["X"]) "X" [1, 2, 3] 5 7 (by decide) rfl (by decide)

/-- C2 counterexample: waiters queued in order `1, 2`; on resolution the
invocations come LAST-queued-first — `2` before `1` — not first-queued-first as
the claim states. -/
theorem waiter_order_counterexample :
    (resolveFetchSuccess (E := Nat)
        { endpoints := ["X"], cache := [("X", ⟨false, [1, 2], none⟩)] } "X" 5).2 =
      [(2, some 5, none), (1, some 5, none)] ∧
    (resolveFetchSuccess (E := Nat)
        { endpoints := ["X"], cache := [("X", ⟨false, [1, 2], none⟩)] } "X" 5).2 ≠
      [(1, some 5, none), (2, some 5, none)] := by
  rw [resolveFetchSuccess_eq
    ({ endpoints := ["X"], cache := [("X", ⟨false, [1, 2], none⟩)] } : LoaderState Nat)
    "X" ⟨false, [1, 2], none⟩ 5 rfl]
  constructor
  · rfl
  · decide

/-- C2 (amended): on resolution (success or failure) every queued waiter is
invoked exactly once with the same `(data, error)` pair, in the REVERSE of the
order they were queued (last queued is called first). -/
theorem waiters_notified_once_reverse (st : LoaderState D) (x : String)
    (entry : CacheEntry D) (resp : D) (err : E)
    (hfind : st.find x = some entry) :
    (resolveFetchSuccess (E := E) st x resp).2 =
      entry.callbacks.reverse.map (fun c => (c, some resp, none)) ∧
    (resolveFetchFailure st x err).2 =
      entry.callbacks.reverse.map (fun c => (c, none, some err)) ∧
    (∀ c, ((resolveFetchSuccess (E := E) st x resp).2.map Prod.fst).count c =
      entry.callbacks.count c) := by
  refine ⟨?_, ?_, ?_⟩
  · rw [resolveFetchSuccess_eq _ _ _ _ hfind]
  · rw [resolveFetchFailure_eq _ _ _ _ hfind]
  · intro c
    rw [resolveFetchSuccess_eq _ _ _ _ hfind]
    have hcomp : (Prod.fst ∘ fun c : Nat => ((c, some resp, none) :
        Invocation D E)) = fun c => c := rfl
    simp only [List.map_map, hcomp, List.map_id', List.count_reverse]

/-- Witness for `waiters_notified_once_reverse` at a concrete two-waiter state. -/
theorem waiters_notified_once_reverse_witness :
    (resolveFetchSuccess (E := Nat)
        { endpoints := ["X"], cache := [("X", ⟨false, [1, 2], none⟩)] } "X" 5).2 =
      ([1, 2] : List Nat).reverse.map (fun c => (c, some 5, none)) ∧
    (resolveFetchFailure
        { endpoints := ["X"], cache := [("X", (⟨false, [1, 2], none⟩ : CacheEntry Nat))] } "X" 9).2 =
      ([1, 2] : List Nat).reverse.map (fun c => (c, none, some 9)) ∧
    (∀ c, ((resolveFetchSuccess (E := Nat)
        { endpoints := ["X"], cache := [("X", ⟨false, [1, 2], none⟩)] } "X" 5).2.map Prod.fst).count c =
      ([1, 2] : List Nat).count c) :=
  waiters_notified_once_reverse
    { endpoints := ["X"], cache := [("X", ⟨false, [1, 2], none⟩)] } "X"
    ⟨false, [1, 2], none⟩ 5 9 rfl

/-- C3 counterexample: the fetch for `"X"` fails with waiter `1` queued; a
caller arriving afterwards (`cb = 2`) issues no new fetch but is NEVER invoked
— not answered immediately from a cached error as the claim states.  (`loaded`
stays `false` and the error is not stored in the cache entry.) -/
theorem late_caller_after_failure_counterexample :
    (loadEndpoint (E := Nat)
      (resolveFetchFailure
        (loadEndpoint (E := Nat) (LoaderState.fresh (D := Nat) ["X"]) "X" 1).1 "X" 42).1
      "X" 2).2 =
    { fetchTriggered := false, invocations := [], loggedInternally := false } := by
  rfl

/-- C3 (amended): a caller arriving after the fetch for `x` resolved never
triggers a new fetch; after a SUCCESSFUL fetch it is answered immediately with
the cached `(data, null)`, but after a FAILED fetch it is merely queued and
never invoked (the failure outcome is not cached: `loaded` stays `false`). -/
theorem load_after_resolution (st : LoaderState D) (x : String) (cb : Nat)
    (d : Option D) (ld : Bool) (hx : x ∈ st.endpoints)
    (hfind : st.find x = some ⟨ld, [], d⟩) :
    (loadEndpoint (E := E) st x cb).2.fetchTriggered = false ∧
    (loadEndpoint (E := E) st x cb).2.invocations =
      (if ld then [(cb, d, none)] else []) := by
  have hmem : ¬ x ∉ st.endpoints := by simpa using hx
  unfold loadEndpoint
  rw [if_neg hmem, hfind]
  cases ld
  · exact ⟨rfl, rfl⟩
  · refine ⟨rfl, ?_⟩
    simp only [if_pos]
    rw [executeCallbacks_eq_reverse_map]
    rfl

/-- Witness for `load_after_resolution`: a loaded entry answers a late caller
at once; a failed entry leaves it queued. -/
theorem load_after_resolution_witness :
    ((loadEndpoint (E := Nat)
        ({ endpoints := ["X"], cache := [("X", ⟨true, [], some 9⟩)] } : LoaderState Nat)
        "X" 2).2.fetchTriggered = false ∧
     (loadEndpoint (E := Nat)
        ({ endpoints := ["X"], cache := [("X", ⟨true, [], some 9⟩)] } : LoaderState Nat)
        "X" 2).2.invocations = (if true then [(2, some 9, none)] else [])) ∧
    ((loadEndpoint (E := Nat)
        ({ endpoints := ["X"], cache := [("X", ⟨false, [], none⟩)] } : LoaderState Nat)
        "X" 2).2.fetchTriggered = false ∧
     (loadEndpoint (E := Nat)
        ({ endpoints := ["X"], cache := [("X", ⟨false, [], none⟩)] } : LoaderState Nat)
        "X" 2).2.invocations = (if false then [(2, (none : Option Nat), none)] else [])) :=
  ⟨load_after_resolution _ "X" 2 (some 9) true (by decide) rfl,
   load_after_resolution _ "X" 2 none false (by decide) rfl⟩

/-- C10: a `loadEndpoint` call for a name outside the endpoint catalog changes
nothing: the callback is never recorded nor invoked, no fetch is triggered, and
the resulting error is only logged by the final `.catch` (the promise is not
returned to the caller, so nothing escapes). -/
theorem unknown_endpoint_only_logs (st : LoaderState D) (x : String) (cb : Nat)
    (hx : x ∉ st.endpoints) :
    loadEndpoint (E := E) st x cb =
      (st, { fetchTriggered := false, invocations := [], loggedInternally := true }) := by
  unfold loadEndpoint
  rw [if_pos hx]

/-- Witness for `unknown_endpoint_only_logs`. -/
theorem unknown_endpoint_only_logs_witness :
    loadEndpoint (E := Nat) (LoaderState.fresh (D := Nat) ["Y"]) "X" 1 =
      (LoaderState.fresh ["Y"],
       { fetchTriggered := false, invocations := [], loggedInternally := true }) :=
  unknown_endpoint_only_logs (LoaderState.fresh ["Y"]) "X" 1 (by decide)

end EndpointLoader

/-!
## Reference expansion (`EndpointLoader.prototype._getAndExpandData`)

`P` is the type of the rest of a collection item (everything except the value
at the reference key), `D` the payload of a secondary response, `E` the error
type of the transport.  `makeRequest` / `fetchRef` are oracles standing for
`util.makeRequest` at the primary uri resp. the computed reference uris (the
two calls return JSON of different shapes, hence two typed oracles).  The
optional request `body` only selects the HTTP method and is absorbed by the
oracle.
-/

namespace RefExpansion

/-- Value sitting at the reference key of a collection item. -/
inductive RefVal (D : Type) where
  /-- the original reference object, with its optional `link` property -/
  | refObj (link : Option String)
  /-- the reference key after merge: replaced by the secondary response data
  (`rawDataToModify.data[childItemKey][i.name][referenceKey] = i.data`) -/
  | expanded (d : D)
  deriving Repr, DecidableEq

/-- One element of `actualData[childItemKey]`. -/
structure Item (P D : Type) where
  payload : P
  /-- the value at the descriptor's reference key, if the item has that key -/
  ref : Option (RefVal D)
  deriving Repr, DecidableEq

/-- A primary response body; `items` is `actualData[childItemKey]` when
`actualData` is an object whose `items` property is an array. -/
structure DataObj (P D : Type) where
  items : Option (List (Item P D))
  deriving Repr, DecidableEq

/-- The endpoint descriptor fields `_getAndExpandData` reads.  The code uses
only the FIRST key of `expandReferences` and that key's `endpointSuffix`, so
the map is modelled by that one pair. -/
structure EndpointProps where
  endpoint : String
  name : Option String
  expandReferences : Option (String × Option String)
  deriving Repr, DecidableEq

/-- JS `str.replace(pat, '')` with a string pattern: remove the FIRST
occurrence of `pat` only. -/
def removeFirstOcc (pat : List Char) : List Char → List Char
  | [] => []
  | c :: rest =>
      if pat.isPrefixOf (c :: rest) then (c :: rest).drop pat.length
      else c :: removeFirstOcc pat rest

/-- JS `str.split('?')[0]`. -/
def takeUntilQuery : List Char → List Char
  | [] => []
  | c :: rest => if c = '?' then [] else c :: takeUntilQuery rest

/-- The reference uri built from an item's `link`:
`link.replace('https://localhost', '')`, and when an `endpointSuffix` is
configured, truncation at the first `?` followed by the suffix. -/
def linkToRefEndpoint (link : String) (suffix : Option String) : String :=
  let referenceEndpoint := String.mk (removeFirstOcc "https://localhost".data link.data)
  match suffix with
  | none => referenceEndpoint
  | some suf => String.mk (takeUntilQuery referenceEndpoint.data) ++ suf

/-- The JS guard `item[referenceKey] && item[referenceKey].link`: the item has
the reference key, its value is an object carrying a truthy (non-empty)
`link`. -/
def linkOf (it : Item P D) : Option String :=
  match it.ref with
  | some (RefVal.refObj (some link)) => if link = "" then none else some link
  | _ => none

/-- The `promises` array: one secondary `_getData(referenceEndpoint, {name: i})`
per linked item, tagged with the item's index. -/
def referencePromises (fetchRef : String → Except E D) (suffix : Option String)
    (items : List (Item P D)) : List (Except E (Nat × D)) :=
  (List.range items.length).filterMap (fun i =>
    (items[i]?).bind (fun it =>
      (linkOf it).map (fun link =>
        (fetchRef (linkToRefEndpoint link suffix)).map (fun d => (i, d)))))

/-- `Promise.all`: all results when every promise fulfils; rejects as soon as
any rejects.  (We surface the first error in list order; the claims only
distinguish success from failure.) -/
def promiseAll : List (Except E A) → Except E (List A)
  | [] => .ok []
  | x :: xs =>
      match x with
      | .error e => .error e
      | .ok a => (promiseAll xs).map (fun l => a :: l)

/-- The merge loop `data.forEach((i) => { try { rawDataToModify.data.items[i.name][referenceKey] = i.data; } catch (e) {} })`:
each secondary result replaces the reference key of the item at its index; an
out-of-range index is swallowed by the `try/catch` and skipped. -/
def mergeResults (items : List (Item P D)) : List (Nat × D) → List (Item P D)
  | [] => items
  | r :: rest =>
      mergeResults
        (match items[r.1]? with
         | some it => items.set r.1 { it with ref := some (RefVal.expanded r.2) }
         | none => items)
        rest

/-- `EndpointLoader.prototype._getAndExpandData`.  The primary fetch is
`_getData(p.endpoint, {name: p.name, body: p.body})` whose `{name, data}`
wrapper uses `p.name` when defined, else the uri. -/
def getAndExpandData (makeRequest : String → Except E (DataObj P D))
    (fetchRef : String → Except E D) (p : EndpointProps) :
    Except E (String × DataObj P D) :=
  match makeRequest p.endpoint with
  | .error err => .error err
  | .ok body =>
      match p.expandReferences with
      | none => .ok (p.name.getD p.endpoint, body)
      | some (_referenceKey, suffix) =>
          match body.items with
          | none =>
              -- no `items` array: `promises` stays empty, `Promise.all([])`
              -- resolves and the merge loop does nothing
              .ok (p.name.getD p.endpoint, body)
          | some items =>
              match promiseAll (referencePromises fetchRef suffix items) with
              | .error err => .error err
              | .ok results =>
                  .ok (p.name.getD p.endpoint, ⟨some (mergeResults items results)⟩)

/-- The secondary results when every secondary fetch succeeds with value
`secVal uri`: index/value pairs for exactly the linked items. -/
def okResults (secVal : String → D) (suffix : Option String)
    (items : List (Item P D)) : List (Nat × D) :=
  (List.range items.length).filterMap (fun i =>
    (items[i]?).bind (fun it =>
      (linkOf it).map (fun link => (i, secVal (linkToRefEndpoint link suffix)))))

theorem promiseAll_map_ok (l : List A) :
    promiseAll (E := E) (l.map Except.ok) = .ok l := by
  induction l with
  | nil => rfl
  | cons a rest ih => simp [promiseAll, ih, Except.map]

theorem referencePromises_eq (fetchRef : String → Except E D)
    (secVal : String → D) (suffix : Option String) (items : List (Item P D))
    (hfetch : ∀ u, fetchRef u = Except.ok (secVal u)) :
    referencePromises fetchRef suffix items =
      (okResults secVal suffix items).map Except.ok := by
  unfold referencePromises okResults
  rw [List.map_filterMap]
  congr 1
  funext i
  cases hit : items[i]? with
  | none => rfl
  | some it =>
      cases hl : linkOf it with
      | none => simp [hl]
      | some link => simp [hl, hfetch, Except.map, Function.comp]

/-- Indices not named by any secondary result are left untouched by the merge. -/
theorem mergeResults_not_mem (rs : List (Nat × D)) (j : Nat) :
    ∀ (items : List (Item P D)), (∀ v, (j, v) ∉ rs) →
    (mergeResults items rs)[j]? = items[j]? := by
  induction rs with
  | nil => intro items _; rfl
  | cons r rest ih =>
      intro items hj
      have hne : r.1 ≠ j := by
        intro h
        exact hj r.2 (by rw [← h]; exact List.mem_cons_self _ _)
      have hj' : ∀ v, (j, v) ∉ rest := fun v hv => hj v (List.mem_cons_of_mem _ hv)
      cases hit : items[r.1]? with
      | none =>
          simp only [mergeResults, hit]
          exact ih items hj'
      | some it =>
          simp only [mergeResults, hit]
          rw [ih _ hj']
          exact List.getElem?_set_ne hne

/-- The index named by a secondary result gets exactly that result merged into
its reference key (provided no other result names the same index). -/
theorem mergeResults_mem (rs : List (Nat × D)) (j : Nat) (v : D) :
    ∀ (items : List (Item P D)), (j, v) ∈ rs → (rs.map Prod.fst).Nodup →
    (mergeResults items rs)[j]? =
      (items[j]?).map (fun it => { it with ref := some (RefVal.expanded v) }) := by
  induction rs with
  | nil => intro items hmem _; cases hmem
  | cons r rest ih =>
      intro items hmem hnd
      rcases List.mem_cons.mp hmem with heq | hmem'
      · cases heq.symm
        have hnotin : ∀ v', (j, v') ∉ rest := by
          intro v' hv'
          have : j ∈ rest.map Prod.fst := List.mem_map.mpr ⟨(j, v'), hv', rfl⟩
          simp only [List.map_cons, List.nodup_cons] at hnd
          exact hnd.1 this
        cases hit : items[j]? with
        | none =>
            simp only [mergeResults, hit]
            rw [mergeResults_not_mem rest j items hnotin, hit]
            rfl
        | some it =>
            have hlt : j < items.length := by
              by_contra hge
              rw [List.getElem?_eq_none (Nat.le_of_not_lt hge)] at hit
              cases hit
            simp only [mergeResults, hit]
            rw [mergeResults_not_mem rest j _ hnotin]
            rw [List.getElem?_set_self (by simpa using hlt)]
            rfl
      · have hne : r.1 ≠ j := by
          intro h
          have : j ∈ rest.map Prod.fst := List.mem_map.mpr ⟨(j, v), hmem', rfl⟩
          simp only [List.map_cons, List.nodup_cons] at hnd
          exact hnd.1 (h ▸ this)
        have hnd' : (rest.map Prod.fst).Nodup := by
          simp only [List.map_cons, List.nodup_cons] at hnd
          exact hnd.2
        cases hit : items[r.1]? with
        | none =>
            simp only [mergeResults, hit]
            exact ih items hmem' hnd'
        | some it =>
            simp only [mergeResults, hit]
            rw [ih _ hmem' hnd']
            rw [List.getElem?_set_ne hne]

/-- The indices of `okResults` are pairwise distinct. -/
theorem okResults_fst_nodup (secVal : String → D) (suffix : Option String)
    (items : List (Item P D)) :
    ((okResults secVal suffix items).map Prod.fst).Nodup := by
  unfold okResults
  rw [List.map_filterMap]
  apply List.Nodup.filterMap
  · intro a a' b hb hb'
    have ha : b = a := by
      cases hit : items[a]? with
      | none => rw [hit] at hb; cases hb
      | some it =>
          rw [hit, Option.some_bind] at hb
          cases hl : linkOf it with
          | none => rw [hl] at hb; simp at hb
          | some link =>
              rw [hl] at hb
              simp at hb
              omega
    have ha' : b = a' := by
      cases hit : items[a']? with
      | none => rw [hit] at hb'; cases hb'
      | some it =>
          rw [hit, Option.some_bind] at hb'
          cases hl : linkOf it with
          | none => rw [hl] at hb'; simp at hb'
          | some link =>
              rw [hl] at hb'
              simp at hb'
              omega
    rw [← ha, ha']
  · exact List.nodup_range _

/-- Membership in `okResults`. -/
theorem okResults_mem_iff (secVal : String → D) (suffix : Option String)
    (items : List (Item P D)) (j : Nat) (v : D) :
    (j, v) ∈ okResults secVal suffix items ↔
      ∃ it, items[j]? = some it ∧
        ∃ link, linkOf it = some link ∧ v = secVal (linkToRefEndpoint link suffix) := by
  unfold okResults
  rw [List.mem_filterMap]
  constructor
  · rintro ⟨i, _hi, hg⟩
    cases hit : items[i]? with
    | none => rw [hit] at hg; cases hg
    | some it =>
        rw [hit, Option.some_bind] at hg
        cases hl : linkOf it with
        | none => rw [hl] at hg; cases hg
        | some link =>
            rw [hl] at hg
            simp at hg
            obtain ⟨hij, hv⟩ := hg
            subst hij
            exact ⟨it, hit, link, hl, hv.symm⟩
  · rintro ⟨it, hit, link, hl, hv⟩
    have hlt : j < items.length := by
      by_contra hge
      rw [List.getElem?_eq_none (Nat.le_of_not_lt hge)] at hit
      cases hit
    refine ⟨j, List.mem_range.mpr hlt, ?_⟩
    rw [hit, Option.some_bind, hl, hv]
    rfl

/-- C5 counterexample: a primary response with two linked items where the
second secondary fetch fails.  `Promise.all` is fail-fast, so
`_getAndExpandData` rejects the WHOLE primary response — contrary to the claim
that one item's secondary-fetch failure leaves the primary response and the
sibling items intact. -/
theorem expansion_failure_counterexample :
    getAndExpandData
      (fun _ => Except.ok
        (⟨some [⟨0, some (RefVal.refObj (some "https://localhost/a"))⟩,
                ⟨1, some (RefVal.refObj (some "https://localhost/b"))⟩]⟩ :
          DataObj Nat Nat))
      (fun u => if u = "/a" then Except.ok 10 else Except.error "boom")
      ⟨"/prim", none, some ("ref", none)⟩ = Except.error "boom" := by
  rfl

/-- C5 (amended): reference expansion is all-or-nothing.  When EVERY secondary
fetch for the linked items succeeds, the primary response comes back with each
linked item's reference key replaced by its own secondary result at the
matching index, and items without a reference link (and their payloads) are
left untouched.  When ANY secondary fetch fails, the whole primary load fails
with that error (`Promise.all` fail-fast) — no best-effort partial merge. -/
theorem expansion_merge_or_fail (makeRequest : String → Except E (DataObj P D))
    (fetchRef : String → Except E D) (secVal : String → D) (p : EndpointProps)
    (refKey : String) (suffix : Option String) (body : DataObj P D)
    (items : List (Item P D))
    (hprim : makeRequest p.endpoint = Except.ok body)
    (hexp : p.expandReferences = some (refKey, suffix))
    (hitems : body.items = some items) :
    ((∀ u, fetchRef u = Except.ok (secVal u)) →
      getAndExpandData makeRequest fetchRef p =
        Except.ok (p.name.getD p.endpoint,
          ⟨some (mergeResults items (okResults secVal suffix items))⟩) ∧
      ∀ j : Nat, (mergeResults items (okResults secVal suffix items))[j]? =
        (items[j]?).map (fun it =>
          match linkOf it with
          | some link =>
              { it with ref := some (RefVal.expanded (secVal (linkToRefEndpoint link suffix))) }
          | none => it)) ∧
    (∀ err, promiseAll (referencePromises fetchRef suffix items) = Except.error err →
      getAndExpandData makeRequest fetchRef p = Except.error err) := by
  constructor
  · intro hfetch
    constructor
    · unfold getAndExpandData
      simp only [hprim, hexp, hitems,
        referencePromises_eq fetchRef secVal suffix items hfetch, promiseAll_map_ok]
    · intro j
      cases hit : items[j]? with
      | none =>
          have hnm : ∀ v, (j, v) ∉ okResults secVal suffix items := by
            intro v hv
            obtain ⟨it, hit', _⟩ := (okResults_mem_iff secVal suffix items j v).mp hv
            rw [hit] at hit'
            cases hit'
          rw [mergeResults_not_mem _ _ _ hnm, hit]
          rfl
      | some it =>
          cases hl : linkOf it with
          | none =>
              have hnm : ∀ v, (j, v) ∉ okResults secVal suffix items := by
                intro v hv
                obtain ⟨it', hit', link, hl', _⟩ :=
                  (okResults_mem_iff secVal suffix items j v).mp hv
                rw [hit] at hit'
                cases hit'
                rw [hl] at hl'
                cases hl'
              rw [mergeResults_not_mem _ _ _ hnm, hit]
              simp [hl]
          | some link =>
              have hm : (j, secVal (linkToRefEndpoint link suffix)) ∈
                  okResults secVal suffix items :=
                (okResults_mem_iff secVal suffix items j _).mpr ⟨it, hit, link, hl, rfl⟩
              rw [mergeResults_mem _ _ _ _ hm (okResults_fst_nodup secVal suffix items),
                hit]
              simp [hl]
  · intro err herr
    unfold getAndExpandData
    simp only [hprim, hexp, hitems, herr]

/-- Witness for `expansion_merge_or_fail`: one linked and one unlinked item,
all secondary fetches succeeding with `10`. -/
theorem expansion_merge_or_fail_witness :
    ((∀ u : String, (fun _ : String => Except.ok (ε := String) (10 : Nat)) u =
        Except.ok ((fun _ : String => (10 : Nat)) u)) →
      getAndExpandData
        (fun _ => Except.ok
          (⟨some [⟨0, some (RefVal.refObj (some "https://localhost/a"))⟩, ⟨1, none⟩]⟩ :
            DataObj Nat Nat))
        (fun _ : String => Except.ok (ε := String) (10 : Nat))
        ⟨"/prim", none, some ("ref", none)⟩ =
        Except.ok ((Option.getD none "/prim"),
          ⟨some (mergeResults
            [⟨0, some (RefVal.refObj (some "https://localhost/a"))⟩, ⟨1, none⟩]
            (okResults (fun _ => 10) none
              [⟨0, some (RefVal.refObj (some "https://localhost/a"))⟩, ⟨1, none⟩]))⟩) ∧
      ∀ j : Nat,
        (mergeResults
          [⟨0, some (RefVal.refObj (some "https://localhost/a"))⟩, ⟨1, none⟩]
          (okResults (fun _ => 10) none
            [⟨0, some (RefVal.refObj (some "https://localhost/a"))⟩, ⟨1, none⟩]))[j]? =
        (([⟨0, some (RefVal.refObj (some "https://localhost/a"))⟩,
           ⟨1, none⟩] : List (Item Nat Nat))[j]?).map (fun it =>
          match linkOf it with
          | some link =>
              { it with ref := some (RefVal.expanded ((fun _ => 10) (linkToRefEndpoint link none))) }
          | none => it)) ∧
    (∀ err : String,
      promiseAll (referencePromises (fun _ : String => Except.ok (ε := String) (10 : Nat)) none
        [⟨0, some (RefVal.refObj (some "https://localhost/a"))⟩, ⟨1, none⟩]) =
        Except.error err →
      getAndExpandData
        (fun _ => Except.ok
          (⟨some [⟨0, some (RefVal.refObj (some "https://localhost/a"))⟩, ⟨1, none⟩]⟩ :
            DataObj Nat Nat))
        (fun _ : String => Except.ok (ε := String) (10 : Nat))
        ⟨"/prim", none, some ("ref", none)⟩ = Except.error err) :=
  expansion_merge_or_fail
    (fun _ => Except.ok
      (⟨some [⟨0, some (RefVal.refObj (some "https://localhost/a"))⟩, ⟨1, none⟩]⟩ :
        DataObj Nat Nat))
    (fun _ : String => Except.ok (ε := String) (10 : Nat))
    (fun _ => 10)
    ⟨"/prim", none, some ("ref", none)⟩ "ref" none
    ⟨some [⟨0, some (RefVal.refObj (some "https://localhost/a"))⟩, ⟨1, none⟩]⟩
    [⟨0, some (RefVal.refObj (some "https://localhost/a"))⟩, ⟨1, none⟩]
    rfl rfl rfl

end RefExpansion

/-!
## Context phase scheduling (`SystemStats.prototype._computeContextData`)

`properties.json` declares `context` as an ordered list of groups.  The
function's promise bookkeeping is embedded explicitly: a promise is identified
by the set of group indices whose completion it awaits, and the synchronous
body additionally produces the log of the group-processing calls it starts, in
start order.  `_processContext(g)` itself starts every property of `g`
immediately and returns a promise awaiting `g` — so "group `i` appears in the
start log during the synchronous call" means group `i`'s endpoint loads begin
before any other group settles.
-/

namespace ContextPhase

/-- `this._processContext(contextData[i])`: starts processing group `i` now
(appended to the start log) and returns a promise awaiting group `i`. -/
def processContext (i : Nat) (log : List Nat) : List Nat × List Nat :=
  ([i], log ++ [i])

/-- JS `promise.then(arg)` when `arg` is NOT a function: per the promise
specification the argument is ignored and the result adopts the receiver's
state.  In `_computeContextData` the argument is the promise returned by the
eagerly evaluated `this._processContext(contextData[i])` — not a callback. -/
def thenNonFunction (promise : List Nat) (_arg : List Nat) : List Nat :=
  promise

/-- The loop `for (let i = 1; i < contextData.length; i++) { promise.then(this._processContext(contextData[i])); }`:
each iteration starts group `i` immediately and DISCARDS the `.then` result;
`promise` is never reassigned. -/
def contextLoop (promise : List Nat) (n : Nat) (i : Nat) (log : List Nat) :
    List Nat × List Nat :=
  if i < n then
    let started := processContext i log
    let _ := thenNonFunction promise started.1
    contextLoop promise n (i + 1) started.2
  else
    (promise, log)
termination_by n - i

/-- `SystemStats.prototype._computeContextData` on an array of `n` context
groups: returns the promise handed back to `collect` (first component: the
group indices it awaits) and the start log of the synchronous call (second
component). -/
def computeContextData (n : Nat) : List Nat × List Nat :=
  if n ≠ 0 then
    let first := processContext 0 []
    contextLoop first.1 n 1 first.2
  else
    ([], [])

theorem contextLoop_spec (promise : List Nat) (n : Nat) :
    ∀ k i log, n - i = k →
    contextLoop promise n i log = (promise, log ++ List.range' i k) := by
  intro k
  induction k with
  | zero =>
      intro i log hk
      unfold contextLoop
      rw [if_neg (by omega)]
      simp
  | succ k ih =>
      intro i log hk
      unfold contextLoop
      rw [if_pos (by omega)]
      simp only [processContext, thenNonFunction]
      rw [ih (i + 1) (log ++ [i]) (by omega)]
      rw [List.range'_succ]
      simp

/-- C4 (the code as it stands, refuting the claim): for a context list of
`n ≥ 2` groups, the promise returned by `_computeContextData` awaits ONLY
group `0` — so the stats phase is gated only on the first group — and ALL `n`
groups are started during the one synchronous call, i.e. group `i + 1` begins
before group `i` has resolved and merged, not strictly sequentially.  The
claim (and the function's own doc comment, "Promise resolved when contextual
data were loaded") requires sequential evaluation gating on all groups; the
loop body `promise.then(this._processContext(contextData[i]))` evaluates its
argument eagerly and never reassigns `promise`. -/
theorem context_groups_not_sequential (n : Nat) (h : 2 ≤ n) :
    (computeContextData n).1 = [0] ∧
    (computeContextData n).2 = List.range n := by
  unfold computeContextData
  rw [if_pos (by omega)]
  simp only [processContext, List.nil_append]
  rw [contextLoop_spec [0] n (n - 1) 1 [0] (by omega)]
  refine ⟨rfl, ?_⟩
  rw [List.range_eq_range']
  have hn : n = (n - 1) + 1 := by omega
  rw [hn, List.range'_succ]
  simp

/-- Witness for `context_groups_not_sequential` at two groups. -/
theorem context_groups_not_sequential_witness :
    (computeContextData 2).1 = [0] ∧ (computeContextData 2).2 = List.range 2 :=
  context_groups_not_sequential 2 (by decide)

end ContextPhase

/-!
## Event-listener reconciliation (the `configWorker.on('change')` handler)

The handler diffs the configured listener entries against the module-level
`listeners` registry and issues `stop`/`start` calls.  A running listener is
observed through the port its server was started on; the registry is an
insertion-ordered map like a JS object.  `DEFAULT_PORT`
(`constants.DEFAULT_EVENT_LISTENER_PORT`, whose numeric value lives outside
the sources) is a parameter.
-/

namespace EventListener

/-- A running listener instance: `listeners[k] = start(port, tracer, tags)`. -/
structure RunningListener where
  port : Nat
  deriving Repr, DecidableEq

/-- One configured entry `lConfig` of the listener class section.  The handler
reads `lConfig.port` (`|| DEFAULT_PORT` when absent) and tests
`lConfig.enable === false`. -/
structure ListenerConfig where
  port : Option Nat
  enable : Option Bool
  deriving Repr, DecidableEq

/-- The observable transport actions the handler performs. -/
inductive Action where
  | stop (name : String) (port : Nat)
  | start (name : String) (port : Nat)
  deriving Repr, DecidableEq

def lookupListener (l : List (String × RunningListener)) (k : String) :
    Option RunningListener :=
  (l.find? (fun kv => kv.1 == k)).map Prod.snd

/-- `delete listeners[k]`. -/
def removeListener (l : List (String × RunningListener)) (k : String) :
    List (String × RunningListener) :=
  l.filter (fun kv => !(kv.1 == k))

/-- `listeners[k] = v`: update in place when present, else append (JS object
insertion order). -/
def setListener (l : List (String × RunningListener)) (k : String)
    (v : RunningListener) : List (String × RunningListener) :=
  if (l.find? (fun kv => kv.1 == k)).isSome then
    l.map (fun kv => if kv.1 == k then (k, v) else kv)
  else
    l ++ [(k, v)]

/-- The per-entry body of `Object.keys(eventListeners).forEach((k) => ...)`:

* `enable === false`: stop and remove when running, else nothing;
* running (`listeners[k]` truthy): `stop(listeners[k])` then
  `listeners[k] = start(port, ...)` — unconditionally, even when nothing
  changed (the code's own TODO: "only need to stop/start if port is
  different");
* not running: `listeners[k] = start(port, ...)`. -/
def applyEntry (defaultPort : Nat) (listeners : List (String × RunningListener))
    (k : String) (cfg : ListenerConfig) :
    List (String × RunningListener) × List Action :=
  let port := cfg.port.getD defaultPort
  if cfg.enable = some false then
    match lookupListener listeners k with
    | some srv => (removeListener listeners k, [Action.stop k srv.port])
    | none => (listeners, [])
  else
    match lookupListener listeners k with
    | some srv =>
        (setListener listeners k ⟨port⟩,
         [Action.stop k srv.port, Action.start k port])
    | none => (listeners ++ [(k, ⟨port⟩)], [Action.start k port])

/-- The `configWorker.on('change')` handler.  `eventListeners = none` models a
configuration without the listener class (`!eventListeners`): every running
listener is stopped and removed.  Otherwise each configured entry is applied
in order.  (Running listeners absent from a nonempty configuration are NOT
touched by this handler.) -/
def onConfigChange (defaultPort : Nat)
    (listeners : List (String × RunningListener))
    (eventListeners : Option (List (String × ListenerConfig))) :
    List (String × RunningListener) × List Action :=
  match eventListeners with
  | none => ([], listeners.map (fun kv => Action.stop kv.1 kv.2.port))
  | some entries =>
      entries.foldl
        (fun acc kcfg =>
          let r := applyEntry defaultPort acc.1 kcfg.1 kcfg.2
          (r.1, acc.2 ++ r.2))
        (listeners, [])

/-- C6 counterexample: a configuration IDENTICAL to the running state (listener
`"L"` enabled on port `3000`, already running on port `3000`) still produces a
stop followed by a start — not the zero actions the idempotence claim
states. -/
theorem identical_config_restarts_counterexample :
    onConfigChange 6514 [("L", ⟨3000⟩)] (some [("L", ⟨some 3000, some true⟩)]) =
      ([("L", ⟨3000⟩)], [Action.stop "L" 3000, Action.start "L" 3000]) ∧
    (onConfigChange 6514 [("L", ⟨3000⟩)] (some [("L", ⟨some 3000, some true⟩)])).2 ≠
      [] := by
  constructor
  · rfl
  · intro h
    simp [onConfigChange, applyEntry, lookupListener, setListener] at h

/-- C6 (amended): reconciliation is idempotent in the resulting STATE but not
in actions: an entry for an enabled listener `k` configured on port `q` while
`k` runs on port `p` always produces exactly one stop (of the old instance)
followed by one start bound to `q`, and leaves `k` running on `q` — also when
the entry is identical to the running instance (`q = p`).  Changing only the
port is the `q ≠ p` instance of the same equation. -/
theorem running_enabled_stop_start (defaultPort p q : Nat) (k : String)
    (cfg : ListenerConfig) (hq : cfg.port.getD defaultPort = q)
    (hen : cfg.enable ≠ some false) :
    onConfigChange defaultPort [(k, ⟨p⟩)] (some [(k, cfg)]) =
      ([(k, ⟨q⟩)], [Action.stop k p, Action.start k q]) := by
  unfold onConfigChange
  simp only [List.foldl_cons, List.foldl_nil]
  unfold applyEntry
  rw [if_neg hen, hq]
  unfold lookupListener setListener
  simp [List.find?]

/-- Witness for `running_enabled_stop_start`: same port (identical entry) and a
changed port. -/
theorem running_enabled_stop_start_witness :
    (onConfigChange 6514 [("L", ⟨3000⟩)] (some [("L", ⟨some 3000, some true⟩)]) =
      ([("L", ⟨3000⟩)], [Action.stop "L" 3000, Action.start "L" 3000])) ∧
    (onConfigChange 6514 [("L", ⟨3000⟩)] (some [("L", ⟨some 3001, some true⟩)]) =
      ([("L", ⟨3001⟩)], [Action.stop "L" 3000, Action.start "L" 3001])) :=
  ⟨running_enabled_stop_start 6514 3000 3000 "L" ⟨some 3000, some true⟩ rfl (by decide),
   running_enabled_stop_start 6514 3000 3001 "L" ⟨some 3001, some true⟩ rfl (by decide)⟩

end EventListener

/-!
## Version comparison (`compareVersionStrings`, `deviceVersionGreaterOrEqual`)

String-handling primitives (`split`, `parseInt`) are implemented over the
character lists of the strings so that every definition evaluates by kernel
reduction.  A thrown `Error` is an `Except.error` (callers surface it as a
ConfigError).
-/

namespace VersionCompare

/-- JS `String.prototype.split(sep)` for a one-character separator: the result
is never empty (`''.split('.') === ['']`). -/
def splitOnChar (sep : Char) : List Char → List (List Char)
  | [] => [[]]
  | c :: rest =>
      match splitOnChar sep rest with
      | [] => [[]]
      | g :: gs => if c = sep then [] :: g :: gs else (c :: g) :: gs

def jsSplit (s : String) (sep : Char) : List String :=
  (splitOnChar sep s.data).map String.mk

/-- Numeric value of the leading run of decimal digits. -/
def digitsPrefixVal (l : List Char) : Int :=
  ((l.takeWhile Char.isDigit).foldl (fun acc c => acc * 10 + (c.toNat - 48)) 0 : Nat)

/-- JS `parseInt(str, 10) || 0`: an optional sign and the leading decimal
digits; `parseInt` of a missing component (`undefined`) or of a string without
leading digits is `NaN`, and `NaN || 0` (as well as a parsed `0`, falsy) gives
`0`. -/
def jsParseIntOr0 : Option String → Int
  | none => 0
  | some s =>
      match s.data with
      | '-' :: rest => -(digitsPrefixVal rest)
      | '+' :: rest => digitsPrefixVal rest
      | l => digitsPrefixVal l

/-- The loop `for (let i = 0; i < maxLen && !cmp; i++) { part1 = parseInt(v1parts[i], 10) || 0; ... }`:
one structural step per iteration (`remaining = maxLen - i`), exiting as soon
as `cmp` becomes non-zero. -/
def cmpLoop (v1parts v2parts : List String) (i : Nat) : Nat → Int
  | 0 => 0
  | remaining + 1 =>
      let part1 := jsParseIntOr0 v1parts[i]?
      let part2 := jsParseIntOr0 v2parts[i]?
      if part1 < part2 then 1
      else if part2 < part1 then -1
      else cmpLoop v1parts v2parts (i + 1) remaining

/-- ``eval(`0${comparator}${cmp}`)`` for the accepted comparators: the JS
numeric comparison of `0` against `cmp` (on two numbers `===`/`!==` coincide
with `==`/`!=`). -/
def evalComparator (comparator : String) (cmp : Int) : Bool :=
  if comparator = "==" ∨ comparator = "===" then 0 == cmp
  else if comparator = "!=" ∨ comparator = "!==" then !(0 == cmp)
  else if comparator = "<" then decide ((0 : Int) < cmp)
  else if comparator = "<=" then decide ((0 : Int) ≤ cmp)
  else if comparator = ">" then decide (cmp < 0)
  else decide (cmp ≤ 0)

/-- `compareVersionStrings(version1, comparator, version2)`. -/
def compareVersionStrings (version1 comparator version2 : String) :
    Except String Bool :=
  let comparator := if comparator = "=" then "==" else comparator
  if !(["==", "===", "<", "<=", ">", ">=", "!=", "!=="].contains comparator) then
    Except.error ("Invalid comparator " ++ comparator)
  else
    let v1parts := jsSplit version1 '.'
    let v2parts := jsSplit version2 '.'
    let maxLen := max v1parts.length v2parts.length
    Except.ok (evalComparator comparator (cmpLoop v1parts v2parts 0 maxLen))

/-- `contextData` as read by the conditional predicate. -/
structure ContextData where
  deviceVersion : Option String
  deriving Repr, DecidableEq

/-- `deviceVersionGreaterOrEqual(contextData, versionToCompare)`. -/
def deviceVersionGreaterOrEqual (contextData : ContextData)
    (versionToCompare : String) : Except String Bool :=
  match contextData.deviceVersion with
  | none =>
      Except.error "deviceVersionGreaterOrEqual: context has no property deviceVersion"
  | some dv => compareVersionStrings dv ">=" versionToCompare

/-- Reference comparison: component-by-component on the parsed integer lists,
a missing trailing component read as `0`, in the code's result encoding
(`1` when `v1 < v2`, `-1` when `v1 > v2`, `0` when equal). -/
def versionListCmp : List Int → List Int → Int
  | [], [] => 0
  | [], b :: bs => if 0 < b then 1 else if b < 0 then -1 else versionListCmp [] bs
  | a :: as, [] => if a < 0 then 1 else if 0 < a then -1 else versionListCmp as []
  | a :: as, b :: bs => if a < b then 1 else if b < a then -1 else versionListCmp as bs

/-- The parsed integer components of a version string. -/
def parsedParts (v : String) : List Int :=
  (jsSplit v '.').map (fun s => jsParseIntOr0 (some s))

theorem jsParseIntOr0_none : jsParseIntOr0 none = 0 := rfl

theorem cmpLoop_eq_versionListCmp (v1 v2 : List String) :
    ∀ rem i, i + rem = max v1.length v2.length →
    cmpLoop v1 v2 i rem =
      versionListCmp ((v1.map (fun s => jsParseIntOr0 (some s))).drop i)
        ((v2.map (fun s => jsParseIntOr0 (some s))).drop i) := by
  intro rem
  induction rem with
  | zero =>
      intro i hi
      have h1 : v1.length ≤ i := by omega
      have h2 : v2.length ≤ i := by omega
      rw [List.drop_eq_nil_of_le (by simpa using h1),
        List.drop_eq_nil_of_le (by simpa using h2)]
      simp [cmpLoop, versionListCmp]
  | succ rem ih =>
      intro i hi
      simp only [cmpLoop]
      by_cases hlt1 : i < v1.length
      · have hd1 : (v1.map (fun s => jsParseIntOr0 (some s))).drop i =
            jsParseIntOr0 (some v1[i]) ::
              (v1.map (fun s => jsParseIntOr0 (some s))).drop (i + 1) := by
          rw [List.drop_eq_getElem_cons (by simpa using hlt1)]
          simp
        have hg1 : v1[i]? = some v1[i] := List.getElem?_eq_getElem hlt1
        by_cases hlt2 : i < v2.length
        · have hd2 : (v2.map (fun s => jsParseIntOr0 (some s))).drop i =
              jsParseIntOr0 (some v2[i]) ::
                (v2.map (fun s => jsParseIntOr0 (some s))).drop (i + 1) := by
            rw [List.drop_eq_getElem_cons (by simpa using hlt2)]
            simp
          have hg2 : v2[i]? = some v2[i] := List.getElem?_eq_getElem hlt2
          rw [hd1, hd2, hg1, hg2]
          simp only [versionListCmp]
          by_cases hab : jsParseIntOr0 (some v1[i]) < jsParseIntOr0 (some v2[i])
          · rw [if_pos hab, if_pos hab]
          · rw [if_neg hab, if_neg hab]
            by_cases hba : jsParseIntOr0 (some v2[i]) < jsParseIntOr0 (some v1[i])
            · rw [if_pos hba, if_pos hba]
            · rw [if_neg hba, if_neg hba]
              exact ih (i + 1) (by omega)
        · have hg2 : v2[i]? = none := List.getElem?_eq_none (by omega)
          have hd2 : (v2.map (fun s => jsParseIntOr0 (some s))).drop i = [] :=
            List.drop_eq_nil_of_le (by simpa using (by omega : v2.length ≤ i))
          have hd2' : (v2.map (fun s => jsParseIntOr0 (some s))).drop (i + 1) = [] :=
            List.drop_eq_nil_of_le (by simpa using (by omega : v2.length ≤ i + 1))
          rw [hd1, hd2, hg1, hg2]
          simp only [versionListCmp, jsParseIntOr0_none]
          by_cases hab : jsParseIntOr0 (some v1[i]) < 0
          · rw [if_pos hab, if_pos hab]
          · rw [if_neg hab, if_neg hab]
            by_cases hba : 0 < jsParseIntOr0 (some v1[i])
            · rw [if_pos hba, if_pos hba]
            · rw [if_neg hba, if_neg hba]
              rw [ih (i + 1) (by omega), hd2']
      · have hg1 : v1[i]? = none := List.getElem?_eq_none (by omega)
        have hd1 : (v1.map (fun s => jsParseIntOr0 (some s))).drop i = [] :=
          List.drop_eq_nil_of_le (by simpa using (by omega : v1.length ≤ i))
        have hd1' : (v1.map (fun s => jsParseIntOr0 (some s))).drop (i + 1) = [] :=
          List.drop_eq_nil_of_le (by simpa using (by omega : v1.length ≤ i + 1))
        have hlt2 : i < v2.length := by omega
        have hg2 : v2[i]? = some v2[i] := List.getElem?_eq_getElem hlt2
        have hd2 : (v2.map (fun s => jsParseIntOr0 (some s))).drop i =
            jsParseIntOr0 (some v2[i]) ::
              (v2.map (fun s => jsParseIntOr0 (some s))).drop (i + 1) := by
          rw [List.drop_eq_getElem_cons (by simpa using hlt2)]
          simp
        rw [hd1, hd2, hg1, hg2]
        simp only [versionListCmp, jsParseIntOr0_none]
        by_cases hab : (0 : Int) < jsParseIntOr0 (some v2[i])
        · rw [if_pos hab, if_pos hab]
        · rw [if_neg hab, if_neg hab]
          by_cases hba : jsParseIntOr0 (some v2[i]) < 0
          · rw [if_pos hba, if_pos hba]
          · rw [if_neg hba, if_neg hba]
            rw [ih (i + 1) (by omega), hd1']

/-- The comparator semantics per the (amended) claim, written from its words:
dotted version strings compared component-by-component as integers with
missing trailing components treated as 0; accepted comparators are `==`, `===`,
`!=`, `!==`, `<`, `<=`, `>`, `>=` with `=` an alias for `==`; any other
comparator string fails. -/
def compareVersionSpec (version1 comparator version2 : String) :
    Except String Bool :=
  let cmp := versionListCmp (parsedParts version1) (parsedParts version2)
  if comparator = "==" ∨ comparator = "=" ∨ comparator = "===" then
    Except.ok (0 == cmp)
  else if comparator = "!=" ∨ comparator = "!==" then Except.ok (!(0 == cmp))
  else if comparator = "<" then Except.ok (decide (0 < cmp))
  else if comparator = "<=" then Except.ok (decide (0 ≤ cmp))
  else if comparator = ">" then Except.ok (decide (cmp < 0))
  else if comparator = ">=" then Except.ok (decide (cmp ≤ 0))
  else
    Except.error ("Invalid comparator " ++
      (if comparator = "=" then "==" else comparator))

/-- C7 counterexample: the comparator `"==="` is NOT in the claim's supported
set `{==, !=, <, <=, >, >=}` ∪ `{=}`, yet `compareVersionStrings` accepts it
and returns a result instead of failing. -/
theorem triple_equals_accepted_counterexample :
    compareVersionStrings "1.0" "===" "1.0" = Except.ok true ∧
    ¬ "===" ∈ ["==", "!=", "<", "<=", ">", ">=", "="] := by
  constructor
  · rfl
  · decide

/-- C7 (amended): `compareVersionStrings` coincides everywhere with the
component-by-component integer comparison `compareVersionSpec` — so it
supports exactly `==`, `===`, `!=`, `!==`, `<`, `<=`, `>`, `>=` and the alias
`=`, failing on every other comparator string — and the claim's examples hold:
`14.1.0 >= 14.1`, `13.9 < 14.0`, and `~=` is rejected. -/
theorem compareVersionStrings_correct :
    (∀ v1 comparator v2,
      compareVersionStrings v1 comparator v2 = compareVersionSpec v1 comparator v2) ∧
    compareVersionStrings "14.1.0" ">=" "14.1" = Except.ok true ∧
    compareVersionStrings "13.9" "<" "14.0" = Except.ok true ∧
    compareVersionStrings "1.0" "~=" "1.0" = Except.error "Invalid comparator ~=" := by
  refine ⟨?_, by rfl, by rfl, by rfl⟩
  intro v1 c v2
  have hkey : cmpLoop (jsSplit v1 '.') (jsSplit v2 '.') 0
      (max (jsSplit v1 '.').length (jsSplit v2 '.').length) =
      versionListCmp (parsedParts v1) (parsedParts v2) := by
    have := cmpLoop_eq_versionListCmp (jsSplit v1 '.') (jsSplit v2 '.')
      (max (jsSplit v1 '.').length (jsSplit v2 '.').length) 0 (by omega)
    simpa [parsedParts] using this
  by_cases h1 : c = "="
  · simp [compareVersionStrings, compareVersionSpec, evalComparator, h1, hkey]
  by_cases h2 : c = "=="
  · simp [compareVersionStrings, compareVersionSpec, evalComparator, h1, h2, hkey]
  by_cases h3 : c = "==="
  · simp [compareVersionStrings, compareVersionSpec, evalComparator, h1, h2, h3, hkey]
  by_cases h4 : c = "!="
  · simp [compareVersionStrings, compareVersionSpec, evalComparator, h1, h2, h3, h4, hkey]
  by_cases h5 : c = "!=="
  · simp [compareVersionStrings, compareVersionSpec, evalComparator,
      h1, h2, h3, h4, h5, hkey]
  by_cases h6 : c = "<"
  · simp [compareVersionStrings, compareVersionSpec, evalComparator,
      h1, h2, h3, h4, h5, h6, hkey]
  by_cases h7 : c = "<="
  · simp [compareVersionStrings, compareVersionSpec, evalComparator,
      h1, h2, h3, h4, h5, h6, h7, hkey]
  by_cases h8 : c = ">"
  · simp [compareVersionStrings, compareVersionSpec, evalComparator,
      h1, h2, h3, h4, h5, h6, h7, h8, hkey]
  by_cases h9 : c = ">="
  · simp [compareVersionStrings, compareVersionSpec, evalComparator,
      h1, h2, h3, h4, h5, h6, h7, h8, h9, hkey]
  · simp [compareVersionStrings, compareVersionSpec,
      h1, h2, h3, h4, h5, h6, h7, h8, h9]

end VersionCompare

/-!
## Output ordering (`SystemStats.prototype.collect`)

JS objects are modelled as insertion-ordered association lists.  The stats
phase resolves all declared properties concurrently; each completion runs
`this.collectedData[key] = data`, so after the phase `collectedData` is an
association list in SOME completion order — the theorems quantify over an
arbitrary list, covering every completion order.  `collect` then rebuilds
`orderedData` by walking `Object.keys(pStats)` (declaration order) and finally
appends the fresh key `telemetryServiceInfo`.
-/

namespace StatsOrdering

def objSet (o : List (String × V)) (k : String) (v : V) : List (String × V) :=
  if (o.find? (fun kv => kv.1 == k)).isSome then
    o.map (fun kv => if kv.1 == k then (k, v) else kv)
  else
    o ++ [(k, v)]

def objGet (o : List (String × V)) (k : String) : Option V :=
  (o.find? (fun kv => kv.1 == k)).map Prod.snd

def objKeys (o : List (String × V)) : List String := o.map Prod.fst

/-- `const orderedData = {}; Object.keys(pStats).forEach((key) => { orderedData[key] = this.collectedData[key]; });`
A declared key missing from `collectedData` reads `undefined` (`none`), and
the assignment still creates the key. -/
def orderCollected (statKeys : List String) (collected : List (String × V)) :
    List (String × Option V) :=
  statKeys.foldl (fun acc k => objSet acc k (objGet collected k)) []

/-- The key order of the value `collect` resolves with: the reordering step
then `data.telemetryServiceInfo = serviceProps` (a fresh key, appended
last). -/
def collectOutputKeys (statKeys : List String) (collected : List (String × V)) :
    List String :=
  objKeys (orderCollected statKeys collected) ++ ["telemetryServiceInfo"]

theorem objSet_not_mem (o : List (String × V)) (k : String) (v : V)
    (h : k ∉ objKeys o) : objSet o k v = o ++ [(k, v)] := by
  have hnone : o.find? (fun kv => kv.1 == k) = none := by
    rw [List.find?_eq_none]
    intro kv hmem hbeq
    exact h (List.mem_map.mpr ⟨kv, hmem, by simpa using hbeq⟩)
  unfold objSet
  rw [hnone]
  rfl

theorem orderCollected_go (collected : List (String × V)) :
    ∀ (ks : List String) (acc : List (String × Option V)),
    ks.Nodup → (∀ k ∈ ks, k ∉ objKeys acc) →
    ks.foldl (fun acc k => objSet acc k (objGet collected k)) acc =
      acc ++ ks.map (fun k => (k, objGet collected k)) := by
  intro ks
  induction ks with
  | nil => intro acc _ _; simp
  | cons k ks ih =>
      intro acc hnd hdisj
      rw [List.foldl_cons,
        objSet_not_mem acc k _ (hdisj k (List.mem_cons_self _ _))]
      rw [ih (acc ++ [(k, objGet collected k)]) (List.Nodup.of_cons hnd) ?_]
      · simp
      · intro k' hk'
        have hkk' : k' ≠ k := by
          intro h
          rw [List.nodup_cons] at hnd
          exact hnd.1 (h ▸ hk')
        intro hmem
        unfold objKeys at hmem
        rw [List.map_append] at hmem
        rcases List.mem_append.mp hmem with hin | hin
        · exact hdisj k' (List.mem_cons_of_mem _ hk') hin
        · simp at hin
          exact hkk' hin

theorem objGet_graph (f : String → A) (ks : List String) (k : String)
    (hk : k ∈ ks) :
    objGet (ks.map (fun k' => (k', f k'))) k = some (f k) := by
  induction ks with
  | nil => cases hk
  | cons k0 ks ih =>
      by_cases h0 : (k0 == k) = true
      · have : k0 = k := by simpa using h0
        subst this
        simp [objGet, List.find?, h0]
      · have hk' : k ∈ ks := by
          rcases List.mem_cons.mp hk with h | h
          · exact absurd (by simp [h]) h0
          · exact h
        simp only [objGet, List.map_cons, List.find?, h0] at *
        exact ih hk'

/-- C8: for EVERY content/completion order of `collectedData`, the resolved
map lists the declared stat keys in declaration order (followed only by the
injected `telemetryServiceInfo` service key), and each declared key holds the
value that completed for it. -/
theorem output_keys_declaration_order (statKeys : List String)
    (collected : List (String × V)) (hnd : statKeys.Nodup) :
    collectOutputKeys statKeys collected = statKeys ++ ["telemetryServiceInfo"] ∧
    ∀ k ∈ statKeys,
      objGet (orderCollected statKeys collected) k = some (objGet collected k) := by
  have hgo := orderCollected_go collected statKeys [] hnd (by intro k _; simp [objKeys])
  constructor
  · unfold collectOutputKeys objKeys orderCollected
    rw [hgo, List.nil_append, List.map_map]
    have hid : (Prod.fst ∘ fun k => (k, objGet collected k)) = id := rfl
    rw [hid, List.map_id]
  · intro k hk
    unfold orderCollected
    rw [hgo, List.nil_append]
    exact objGet_graph _ statKeys k hk

/-- Witness for `output_keys_declaration_order`: declared order `a, b, c` with
`c` completing first. -/
theorem output_keys_declaration_order_witness :
    collectOutputKeys ["a", "b", "c"] [("c", 3), ("a", 1), ("b", 2)] =
      ["a", "b", "c"] ++ ["telemetryServiceInfo"] ∧
    ∀ k ∈ ["a", "b", "c"],
      objGet (orderCollected ["a", "b", "c"] [("c", 3), ("a", 1), ("b", 2)]) k =
        some (objGet [("c", 3), ("a", 1), ("b", 2)] k) :=
  output_keys_declaration_order ["a", "b", "c"] [("c", 3), ("a", 1), ("b", 2)]
    (by decide)

end StatsOrdering

/-!
## Conditional property resolution
(`SystemStats.prototype._preprocessProperty` / `_processProperty`)

A property node either has no `if` block (`Property.leaf`) or carries an
`{if, then, else}` conditional with possibly-absent branches (`Property.cond`).
Besides `key` and `disabled`, a property carries normalization directives
(filter/rename/array-to-map/custom-function); they are copied by exactly the
same `Object.keys(...).forEach` loop as `key`/`disabled` and play no role in
these claims, so the accumulated object tracks `key` and `disabled`.
`mustache.render` on an untemplated key is the identity, and endpoint
selection plus loading/normalization (`_splitKey`/`_loadData`/`_processData`)
is absorbed into the `loadData` oracle keyed by the resolved `key` string.
-/

namespace PropertyResolution

/-- A node of the declarative property tree. -/
inductive Property where
  | leaf (key : Option String) (disabled : Option Bool)
  | cond (key : Option String) (disabled : Option Bool)
      (condBlock : List (String × String))
      (thenBranch elseBranch : Option Property)
  deriving Repr

/-- The `CONDITIONAL_FUNCS` table: only `deviceVersionGreaterOrEqual`. -/
def CONDITIONAL_FUNCS (name : String) :
    Option (VersionCompare.ContextData → String → Except String Bool) :=
  if name = "deviceVersionGreaterOrEqual" then
    some VersionCompare.deviceVersionGreaterOrEqual
  else none

/-- `SystemStats.prototype._resolveConditional`: iterate the block's keys,
throw on an unknown key, and fold `ret = ret && func(this.contextData, arg)`
(when `ret` is already `false`, `&&` short-circuits and the function is not
called). -/
def resolveConditional (ctx : VersionCompare.ContextData) :
    List (String × String) → Bool → Except String Bool
  | [], ret => Except.ok ret
  | (k, arg) :: rest, ret =>
      match CONDITIONAL_FUNCS k with
      | none => Except.error ("Unknown property in conditional block " ++ k)
      | some f =>
          if ret then
            match f ctx arg with
            | Except.error e => Except.error e
            | Except.ok b => resolveConditional ctx rest b
          else resolveConditional ctx rest false

/-- The fields of `newObj` accumulated by the copy loop. -/
structure AccFields where
  key : Option String
  disabled : Option Bool
  deriving Repr, DecidableEq

/-- `Object.keys(property).forEach(...)`: copy this level's non-conditional
fields onto `newObj`, overwriting; a field absent at this level leaves the
accumulated one in place. -/
def copyFields (k : Option String) (d : Option Bool) (acc : AccFields) :
    AccFields :=
  { key := match k with | some s => some s | none => acc.key,
    disabled := match d with | some b => some b | none => acc.disabled }

/-- The `while (property)` loop of `_preprocessProperty`: copy the level's
fields, stop when there is no `if` block, otherwise resolve the conditional
and descend into the selected branch — exiting with the accumulated fields
when that branch is absent (`undefined`). -/
def preprocessLoop (ctx : VersionCompare.ContextData) :
    Option Property → AccFields → Except String AccFields
  | none, acc => Except.ok acc
  | some (Property.leaf k d), acc => Except.ok (copyFields k d acc)
  | some (Property.cond k d blk thenB elseB), acc =>
      match resolveConditional ctx blk true with
      | Except.error e => Except.error e
      | Except.ok true => preprocessLoop ctx thenB (copyFields k d acc)
      | Except.ok false => preprocessLoop ctx elseB (copyFields k d acc)

/-- `SystemStats.prototype._preprocessProperty`: no `if` block → the property
itself (deep-copied); otherwise the accumulation loop starting from
`newObj = {}`. -/
def preprocessProperty (ctx : VersionCompare.ContextData) (p : Property) :
    Except String AccFields :=
  match p with
  | Property.leaf k d => Except.ok ⟨k, d⟩
  | Property.cond _ _ _ _ _ => preprocessLoop ctx (some p) ⟨none, none⟩

/-- Outcome of `_processProperty` for one property. -/
inductive PropOutcome (V : Type) where
  /-- `resolve()` without storing anything: no collected value for the key -/
  | skipped
  /-- `this.collectedData[key] = data` -/
  | collected (v : V)
  /-- the property's promise rejects (logged, then re-rejected: with
  `Promise.all` this fails the whole phase) -/
  | failed (e : String)
  deriving Repr, DecidableEq

/-- `SystemStats.prototype._processProperty`: preprocess, render, then skip
when `property.disabled` is truthy, else load and collect.  When the resolved
descriptor has NO `key`, `_loadData` calls `this._splitKey(undefined)` and
`undefined.split` throws a TypeError, rejecting the property. -/
def processProperty (ctx : VersionCompare.ContextData)
    (loadData : String → Except String V) (p : Property) : PropOutcome V :=
  match preprocessProperty ctx p with
  | Except.error e => PropOutcome.failed e
  | Except.ok acc =>
      if acc.disabled = some true then PropOutcome.skipped
      else
        match acc.key with
        | none =>
            PropOutcome.failed
              "TypeError: Cannot read property split of undefined"
        | some key =>
            match loadData key with
            | Except.error e => PropOutcome.failed e
            | Except.ok v => PropOutcome.collected v

/-- C9 counterexample: context device version `13.0`, property
`{if: {deviceVersionGreaterOrEqual: "14.0"}, then: {key: "a"}}` with NO else
branch.  The conditional selects the absent `else`, and the property does NOT
resolve to a disabled no-op: processing fails with a TypeError (which, through
`Promise.all`, fails the phase). -/
theorem undefined_branch_fails_counterexample :
    processProperty ⟨some "13.0"⟩ (fun _ => Except.ok (0 : Nat))
      (Property.cond none none [("deviceVersionGreaterOrEqual", "14.0")]
        (some (Property.leaf (some "a") none)) none) =
      PropOutcome.failed "TypeError: Cannot read property split of undefined" := by
  have hres : resolveConditional ⟨some "13.0"⟩
      [("deviceVersionGreaterOrEqual", "14.0")] true = Except.ok false := rfl
  unfold processProperty preprocessProperty
  simp only [preprocessLoop, hres]
  rfl

/-- C9 (amended): when the conditional walk of a top-level `{if, then, else}`
property selects an ABSENT branch, the resolved descriptor holds exactly the
non-conditional fields of that level (`key`, `disabled`, …).  The property is
treated as disabled only if a truthy `disabled` was among them; otherwise,
with no accumulated `key` it FAILS with a TypeError (failing the property and,
via `Promise.all`, the cycle), and with an accumulated `key` it proceeds to
load and collect normally. -/
theorem undefined_branch_outcome (ctx : VersionCompare.ContextData)
    (loadData : String → Except String V) (k : Option String)
    (d : Option Bool) (blk : List (String × String)) (elseB : Option Property)
    (hres : resolveConditional ctx blk true = Except.ok true) :
    preprocessProperty ctx (Property.cond k d blk none elseB) =
      Except.ok ⟨k, d⟩ ∧
    processProperty ctx loadData (Property.cond k d blk none elseB) =
      (if d = some true then PropOutcome.skipped
       else
         match k with
         | none =>
             PropOutcome.failed
               "TypeError: Cannot read property split of undefined"
         | some key =>
             match loadData key with
             | Except.error e => PropOutcome.failed e
             | Except.ok v => PropOutcome.collected v) := by
  have hpre : preprocessProperty ctx (Property.cond k d blk none elseB) =
      Except.ok ⟨k, d⟩ := by
    unfold preprocessProperty
    simp only [preprocessLoop, hres, copyFields]
    cases k <;> cases d <;> rfl
  refine ⟨hpre, ?_⟩
  unfold processProperty
  rw [hpre]

/-- Witness for `undefined_branch_outcome`: an empty conditional block (which
resolves to `true`) and an absent `then` branch with no other fields — the
processing outcome is the TypeError failure, not a skip. -/
theorem undefined_branch_outcome_witness :
    (preprocessProperty ⟨some "13.0"⟩
        (Property.cond none none [] none none) =
      Except.ok ⟨none, none⟩ ∧
    processProperty ⟨some "13.0"⟩ (fun _ => Except.ok (0 : Nat))
        (Property.cond none none [] none none) =
      (if (none : Option Bool) = some true then PropOutcome.skipped
       else
         match (none : Option String) with
         | none =>
             PropOutcome.failed
               "TypeError: Cannot read property split of undefined"
         | some key =>
             match (fun _ => Except.ok (0 : Nat)) key with
             | Except.error e => PropOutcome.failed e
             | Except.ok v => PropOutcome.collected v)) :=
  undefined_branch_outcome ⟨some "13.0"⟩ (fun _ => Except.ok (0 : Nat))
    none none [] none rfl

end PropertyResolution
